import Mathlib

/-!
# Verification of the peerio-icebear synchronization core

A shallow embedding, in Lean 4, of the keg object model
(`src/models/kegs/keg.js`), the `MyChats` synced keg
(`src/models/chats/my-chats.ts`), the folder hierarchy
(`src/models/files/file-store.folders.js` and `AbstractFolder`), the
aggregate file store (`src/models/files/file-store-base.js`) and the
owner-side descriptor migration (`src/models/files/file-store.folders.js`,
`FileStore.onFileAdded`), together with theorems settling the frozen
claims about those components.

JavaScript strings are compared by UTF-16 code units; all identifiers and
collection versions appearing in the source and in the claims are ASCII,
where Lean's code points and UTF-16 units coincide, so we model a JS
string comparison by lexicographic comparison of `Char.toNat` lists.
-/

/-! ## JavaScript string primitives -/

/-- The code units of a string (ASCII/BMP inputs only, where Lean code
points equal UTF-16 units). JS relational operators compare strings by
these units. -/
def codeUnits (s : String) : List Nat := s.data.map Char.toNat

/-- Lexicographic comparison of code-unit lists: the semantics of the JS
`<` operator on strings. -/
def jsLtUnits : List Nat → List Nat → Bool
  | [], [] => false
  | [], _ :: _ => true
  | _ :: _, [] => false
  | a :: as, b :: bs => if a < b then true else if b < a then false else jsLtUnits as bs

/-- JS `a < b` for strings. -/
def jsLt (a b : String) : Bool := jsLtUnits (codeUnits a) (codeUnits b)

/-- The `if (candidate > current) current = candidate` watermark pattern of
the stores, as a binary operator: JS `a < b ? b : a`. -/
def jsMaxStr (a b : String) : String := if jsLt a b then b else a

/-- JS `String.prototype.toLowerCase` on a single ASCII code unit. -/
def charLowerNat (n : Nat) : Nat := if 65 ≤ n ∧ n ≤ 90 then n + 32 else n

/-- JS `s.toLowerCase()`, restricted to ASCII input, as a code-unit list. -/
def jsLower (s : String) : List Nat := (codeUnits s).map charLowerNat

theorem jsLtUnits_irrefl (a : List Nat) : jsLtUnits a a = false := by
  induction a with
  | nil => rfl
  | cons x xs ih => simp [jsLtUnits, ih]

theorem jsLtUnits_trans : ∀ {a b c : List Nat},
    jsLtUnits a b = true → jsLtUnits b c = true → jsLtUnits a c = true
  | [], [], _, h1, _ => by simp [jsLtUnits] at h1
  | [], _ :: _, [], _, h2 => by simp [jsLtUnits] at h2
  | [], _ :: _, _ :: _, _, _ => by simp [jsLtUnits]
  | _ :: _, [], _, h1, _ => by simp [jsLtUnits] at h1
  | _ :: _, _ :: _, [], _, h2 => by simp [jsLtUnits] at h2
  | a :: as, b :: bs, c :: cs, h1, h2 => by
      simp only [jsLtUnits] at h1 h2 ⊢
      by_cases hab : a < b
      · by_cases hbc : b < c
        · simp [Nat.lt_trans hab hbc]
        · by_cases hcb : c < b
          · simp [hbc, hcb] at h2
          · have hbceq : b = c := Nat.le_antisymm (Nat.not_lt.mp hcb) (Nat.not_lt.mp hbc)
            subst hbceq
            simp [hab]
      · by_cases hba : b < a
        · simp [hab, hba] at h1
        · have habeq : a = b := Nat.le_antisymm (Nat.not_lt.mp hba) (Nat.not_lt.mp hab)
          subst habeq
          simp [Nat.lt_irrefl] at h1
          by_cases hac : a < c
          · simp [hac]
          · by_cases hca : c < a
            · simp [hac, hca] at h2
            · simp [hac, hca] at h2 ⊢
              exact jsLtUnits_trans h1 h2

theorem jsLtUnits_asymm : ∀ {a b : List Nat},
    jsLtUnits a b = true → jsLtUnits b a = false
  | [], [], h => by simp [jsLtUnits] at h
  | [], _ :: _, _ => by simp [jsLtUnits]
  | _ :: _, [], h => by simp [jsLtUnits] at h
  | a :: as, b :: bs, h => by
      simp only [jsLtUnits] at h ⊢
      by_cases hab : a < b
      · simp [hab, Nat.lt_asymm hab]
      · by_cases hba : b < a
        · simp [hab, hba] at h
        · have habeq : a = b := Nat.le_antisymm (Nat.not_lt.mp hba) (Nat.not_lt.mp hab)
          subst habeq
          simp [Nat.lt_irrefl] at h ⊢
          exact jsLtUnits_asymm h

theorem jsLt_irrefl (a : String) : jsLt a a = false := jsLtUnits_irrefl _

theorem jsLt_trans {a b c : String} (h1 : jsLt a b = true) (h2 : jsLt b c = true) :
    jsLt a c = true := jsLtUnits_trans h1 h2

theorem jsLt_asymm {a b : String} (h : jsLt a b = true) : jsLt b a = false :=
  jsLtUnits_asymm h

/-! ## The Keg base class (`src/models/kegs/keg.js`)

A keg's logical payload is kept abstract (`String`); the base class
serializes it, embeds the `_sys` anti-tamper header when the keg is
encrypted, encrypts, and sends.  Decryption success of a raw record is a
fact about the ciphertext and key, modelled as a field of the record.
JS exceptions mutate-then-throw, so every operation returns the error
(if any) together with the state of the keg when control left the
operation. -/

/-- The `_sys` anti-tamper header embedded in encrypted payloads. -/
structure SysHeader where
  kegId : String
  type : String
deriving DecidableEq

/-- A decrypted, parsed keg payload: the optional `_sys` header plus the
logical payload data (abstract). -/
structure KegPayload where
  sys : Option SysHeader
  data : String
deriving DecidableEq

/-- A raw keg record as delivered by the transport. `decryptsOk` models
whether `secret.decryptString` / `JSON.parse` succeed on the payload
bytes; when they do, `payload` is the parsed result. -/
structure RawKeg where
  kegId : String
  version : Nat
  owner : String
  collectionVersion : String
  payload : Option KegPayload
  props : String
  decryptsOk : Bool
deriving DecidableEq

/-- In-memory state of a `Keg` instance: the constructor arguments plus
the fields written by load/save. `payloadData` is the deserialized
logical payload (`none` until a payload is applied), `props` the applied
props object (abstract). -/
structure Keg where
  id : Option String
  type : String
  plaintext : Bool
  version : Nat
  owner : String
  collectionVersion : String
  payloadData : Option String
  props : String
deriving DecidableEq

/-- Errors thrown during hydration (`loadFromKeg`). -/
inductive KegLoadError where
  | rehydrateIdMismatch
  | decryptFailed
  | missingAntiTamperHeader
  | antiTamperIdMismatch
  | antiTamperTypeMismatch
deriving DecidableEq

/-- Errors produced by a save. -/
inductive KegSaveError where
  | serializeFailed
  | transportFailed
deriving DecidableEq

/-- Response of `/auth/kegs/create`. -/
structure CreateKegResponse where
  kegId : String
  version : Nat
  collectionVersion : String
deriving DecidableEq

namespace Keg

/-- `Keg.detectTampering`: compares the decrypted payload's `_sys` header
against the keg's (just-assigned) id and its type; `none` means no error.
A payload without a `_sys` object makes the JS property access throw. -/
def detectTampering (k : Keg) (p : KegPayload) : Option KegLoadError :=
  match p.sys with
  | none => some .missingAntiTamperHeader
  | some s =>
    if some s.kegId ≠ k.id then some .antiTamperIdMismatch
    else if s.type ≠ k.type then some .antiTamperTypeMismatch
    else none

/-- Body of `Keg.loadFromKeg` after the rehydration identity guard:
copy id/version/owner/collectionVersion, stop if there is no payload,
otherwise decrypt (unless plaintext), run `detectTampering` (unless
plaintext), and apply payload and props. -/
def loadFromKegBody (k : Keg) (r : RawKeg) : Option KegLoadError × Keg :=
  let k1 : Keg := { k with
    id := some r.kegId
    version := r.version
    owner := r.owner
    collectionVersion := r.collectionVersion }
  match r.payload with
  | none => (none, k1)
  | some p =>
    if !k.plaintext && !r.decryptsOk then (some .decryptFailed, k1)
    else if k.plaintext then (none, { k1 with payloadData := some p.data, props := r.props })
    else
      match detectTampering k1 p with
      | some e => (some e, k1)
      | none => (none, { k1 with payloadData := some p.data, props := r.props })

/-- `Keg.loadFromKeg`: hydration of a keg from a raw record. -/
def loadFromKeg (k : Keg) (r : RawKeg) : Option KegLoadError × Keg :=
  match k.id with
  | some i => if i ≠ r.kegId then (some .rehydrateIdMismatch, k) else loadFromKegBody k r
  | none => loadFromKegBody k r

/-- `Keg._internalSave`: serialize (everything up to and including
`serializeProps` sits in the `try` block, modelled by `serializeOk`),
then increment the local version while building the update request, then
send; `sendResult` is the server's `collectionVersion` on success and
`none` on transport failure. -/
def _internalSave (k : Keg) (serializeOk : Bool) (sendResult : Option String) :
    Option KegSaveError × Keg :=
  if !serializeOk then (some .serializeFailed, k)
  else
    let k1 : Keg := { k with version := k.version + 1 }
    match sendResult with
    | none => (some .transportFailed, k1)
    | some cv => (none, { k1 with collectionVersion := cv })

/-- `Keg.saveToServer`: create first when the keg has no id (adopting the
server-assigned id/version/collectionVersion), then `_internalSave`. -/
def saveToServer (k : Keg) (createResult : Option CreateKegResponse)
    (serializeOk : Bool) (sendResult : Option String) : Option KegSaveError × Keg :=
  match k.id with
  | some _ => _internalSave k serializeOk sendResult
  | none =>
    match createResult with
    | none => (some .transportFailed, k)
    | some c =>
      _internalSave
        { k with id := some c.kegId, version := c.version, collectionVersion := c.collectionVersion }
        serializeOk sendResult

/-- A sequence of successful plain-update saves (`_internalSave` with
serialization and transport succeeding), returning each server
collection version in turn. -/
def iterateSaves (k : Keg) (cvs : List String) : Keg :=
  cvs.foldl (fun acc cv => (_internalSave acc true (some cv)).2) k

end Keg

/-! ## The MyChats synced keg (`src/models/chats/my-chats.ts`)

Only the favorite/hidden list manipulation is relevant here; the keg
plumbing (SyncedKeg) is orthogonal to the claims. -/

/-- The two chat-id lists held by the `my_chats` keg. -/
structure MyChats where
  favorites : List String
  hiddenChats : List String
deriving DecidableEq

namespace MyChats

/-- `MyChats._add`: push the value unless `indexOf` finds it; returns
whether it was added, and the new array. -/
def _add (array : List String) (value : String) : Bool × List String :=
  if value ∈ array then (false, array) else (true, array ++ [value])

/-- `MyChats._remove`: splice out the first occurrence found by
`indexOf`; returns whether something was removed, and the new array. -/
def _remove (array : List String) (value : String) : Bool × List String :=
  if value ∈ array then (true, array.erase value) else (false, array)

/-- `MyChats.removeHidden`. -/
def removeHidden (st : MyChats) (chatId : String) : Bool × MyChats :=
  let r := _remove st.hiddenChats chatId
  (r.1, { st with hiddenChats := r.2 })

/-- `MyChats.removeFavorite`. -/
def removeFavorite (st : MyChats) (chatId : String) : Bool × MyChats :=
  let r := _remove st.favorites chatId
  (r.1, { st with favorites := r.2 })

/-- `MyChats.addFavorite`: add to favorites; when newly added, also drop
the id from the hidden list. -/
def addFavorite (st : MyChats) (chatId : String) : Bool × MyChats :=
  let r := _add st.favorites chatId
  let st1 : MyChats := { st with favorites := r.2 }
  if r.1 then (r.1, (removeHidden st1 chatId).2) else (r.1, st1)

/-- `MyChats.addHidden`: add to hidden; when newly added, also drop the
id from the favorites list. -/
def addHidden (st : MyChats) (chatId : String) : Bool × MyChats :=
  let r := _add st.hiddenChats chatId
  let st1 : MyChats := { st with hiddenChats := r.2 }
  if r.1 then (r.1, (removeFavorite st1 chatId).2) else (r.1, st1)

/-- One call against the MyChats keg. -/
inductive ChatOp where
  | addFav (chatId : String)
  | remFav (chatId : String)
  | addHid (chatId : String)
  | remHid (chatId : String)

/-- Apply a call, discarding the boolean result. -/
def applyChatOp (st : MyChats) : ChatOp → MyChats
  | .addFav id => (addFavorite st id).2
  | .remFav id => (removeFavorite st id).2
  | .addHid id => (addHidden st id).2
  | .remHid id => (removeHidden st id).2

/-- Apply a sequence of calls. -/
def applyChatOps (st : MyChats) (ops : List ChatOp) : MyChats :=
  ops.foldl applyChatOp st

/-- The empty initial state of the keg. -/
def emptyChats : MyChats := ⟨[], []⟩

/-- The C10 invariant: both lists duplicate-free and disjoint. -/
def ListsOk (st : MyChats) : Prop :=
  st.favorites.Nodup ∧ st.hiddenChats.Nodup ∧
    ∀ id : String, ¬(id ∈ st.favorites ∧ id ∈ st.hiddenChats)

end MyChats

/-! ## Folder creation (`src/models/files/file-store.folders.js` and
`AbstractFolder.findFolderByName`)

`createFolder(name, parent)` resolves the target (the parent or the
root), checks for a case-insensitive name collision among the target's
child folders, and only then allocates and attaches the folder and
registers it in `folderResolveMap`. -/

/-- A file folder with the fields touched by `createFolder`. -/
structure FileFolderRec where
  folderId : String
  name : String
  createdAt : Nat
deriving DecidableEq

/-- `AbstractFolder.normalizedName`: the lowercased name ('' when the
name is missing is irrelevant for non-empty names). -/
def AbstractFolder.normalizedName (f : FileFolderRec) : List Nat := jsLower f.name

/-- `AbstractFolder.findFolderByName`: first child folder whose
normalized name equals the lowercased query. -/
def AbstractFolder.findFolderByName (folders : List FileFolderRec) (name : String) :
    Option FileFolderRec :=
  folders.find? (fun f => AbstractFolder.normalizedName f == jsLower name)

/-- The state touched by `FileStoreFolders.createFolder`: the target
folder's children and the store-wide id→folder map. -/
structure FoldersState where
  targetFolders : List FileFolderRec
  folderResolveMap : List (String × FileFolderRec)
deriving DecidableEq

namespace FileStoreFolders

/-- `FileStoreFolders.createFolder` against a fixed target (the given
parent, or the root when the parent is null): throws the collision error
before any mutation; otherwise allocates the id, stamps `createdAt`,
registers the folder and attaches it.  Returns the thrown error (if
any) and the state when control left the function. -/
def createFolder (st : FoldersState) (name : String) (newFolderId : String) (now : Nat) :
    Option String × FoldersState :=
  match AbstractFolder.findFolderByName st.targetFolders name with
  | some _ => (some "error_folderAlreadyExists", st)
  | none =>
    let folder : FileFolderRec := { folderId := newFolderId, name := name, createdAt := now }
    (none, { targetFolders := st.targetFolders ++ [folder],
             folderResolveMap := st.folderResolveMap ++ [(newFolderId, folder)] })

end FileStoreFolders

/-! ## Owner-side descriptor migration (`FileStore.onFileAdded`,
`src/models/files/file-store.folders.js` part of the main file store)

When a legacy (format 0) file keg owned by the current user is first
seen, `onFileAdded` sets `migrating = true`, flips `format` to the
latest, and queues a task that retries `createDescriptor` +
`saveToServer` through `retryUntilSuccess` with `maxRetries: 10`; the
inner catch converts a `malformedRequest` server error (another client
migrated first) into success; exhausting the retries reverts `format`
to 0.  The retry helper itself (`helpers/retry.js`) is not among the
sources; it is modelled from the spec below. -/

/-- Outcome of one `createDescriptor` + `saveToServer` attempt. -/
inductive MigrationAttempt where
  | ok
  | malformedRequest
  | otherError
deriving DecidableEq

/-- Migration-relevant state of a `File`. -/
structure FileMigState where
  format : Nat
  migrating : Bool
deriving DecidableEq

/-- Modelled from the spec: `file.latestFormat`, the current (split
descriptor) format tag; the spec fixes only `legacy = 0` and "latest",
so any nonzero constant is faithful. -/
def latestFormat : Nat := 1

namespace FileStore

/-- Modelled from the spec: `retryUntilSuccess(fn, {maxRetries})`
("all other save failures are retried up to a bounded count") applied to
the migration task body, whose own catch converts `malformedRequest`
into success.  Given the budget of attempts left and the outcomes the
successive attempts would produce, decides whether the retried task
ultimately succeeds. -/
def migrationTaskSucceeds : Nat → List MigrationAttempt → Bool
  | _, [] => false
  | 0, _ :: _ => false
  | _ + 1, .ok :: _ => true
  | _ + 1, .malformedRequest :: _ => true
  | n + 1, .otherError :: rest => migrationTaskSucceeds n rest

/-- `FileStore.onFileAdded`, owner branch, for a legacy file
(`!file.format` and `file.fileOwner === User.current.username`): the
final state of the file after the queued migration task settles.
On success (including the benign `malformedRequest` conflict) the format
stays at `latestFormat` and `migrating` is cleared; when
`retryUntilSuccess` exhausts its `maxRetries: 10` budget, the catch
reverts `format` to 0 and clears `migrating`. -/
def onFileAddedOwnerLegacy (outcomes : List MigrationAttempt) : FileMigState :=
  if migrationTaskSucceeds 10 outcomes then
    { format := latestFormat, migrating := false }
  else
    { format := 0, migrating := false }

end FileStore

/-! ## The aggregate file store (`src/models/files/file-store-base.js`)

The store holds an in-memory list of `File` kegs, two string watermarks
(`maxUpdateId`, `knownUpdateId`) and the load/update flags.  All
collection-version comparisons in the source are JS string comparisons,
modelled with `jsLt`.  The `File` keg class itself
(`src/models/files/file.js`) is not among the sources; its hydration is
modelled from the spec below. -/

/-- A raw `file` keg record as processed by `_loadPage` / `updateFiles`:
outer keg id, string collection version, the server flags, the logical
`props.fileId` (`""` when the prop is missing), whether `File.loadFromKeg`
would succeed on it, and the keg version. -/
structure FileRec where
  kegId : String
  collectionVersion : String
  deleted : Bool
  hidden : Bool
  propsFileId : String
  loadOk : Bool
  version : Nat
deriving DecidableEq

/-- In-memory `File` fields relevant to the store: the keg id, the
logical `fileId` (`""` until props are applied) and the keg version. -/
structure StoreFile where
  id : String
  fileId : String
  version : Nat
deriving DecidableEq

namespace File

/-- Modelled from the spec: `File.loadFromKeg` (file.js is not among the
sources). It delegates to `Keg.loadFromKeg` — which copies the outer
metadata before decrypting — and catches hydration failures, returning a
falsy value instead of throwing.  On success the `fileId` prop is
applied; on failure the metadata already copied (keg id, version) stays
mutated but `fileId` is untouched. -/
def loadFromKeg (f : StoreFile) (r : FileRec) : Bool × StoreFile :=
  if r.loadOk then (true, { id := r.kegId, fileId := r.propsFileId, version := r.version })
  else (false, { f with id := r.kegId, version := r.version })

/-- `new File(db, store)`: a freshly constructed file keg. -/
def newFile : StoreFile := { id := "", fileId := "", version := 0 }

end File

/-- Options of a `/auth/kegs/db/list-ext` request. -/
structure ListExtOptions where
  reverse : Bool
  fromKegId : String
  count : Nat
deriving DecidableEq

/-- Server-side filter of a `/auth/kegs/db/list-ext` request. -/
structure ListExtFilter where
  deleted : Bool
  hidden : Bool
deriving DecidableEq

/-- A `/auth/kegs/db/list-ext` request as issued by `_loadPage`. -/
structure ListExtRequest where
  options : ListExtOptions
  filter : ListExtFilter
deriving DecidableEq

namespace FileStoreBase

/-- State of a `FileStoreBase` instance. -/
structure FileStore where
  files : List StoreFile
  maxUpdateId : String
  knownUpdateId : String
  loading : Bool
  loaded : Bool
  updating : Bool
  paused : Bool
  subscribedToDigest : Bool
deriving DecidableEq

/-- A freshly constructed store. -/
def newStore : FileStore :=
  { files := [], maxUpdateId := "", knownUpdateId := "", loading := false,
    loaded := false, updating := false, paused := false, subscribedToDigest := false }

/-- `FileStoreBase.getById` over the store's files: lookup in the
fileId→File map (an absent or missing key yields nothing). -/
def getById (files : List StoreFile) (fileId : String) : Option StoreFile :=
  if fileId = "" then none else files.find? (fun f => f.fileId == fileId)

/-- `FileStoreBase.getByKegId` over the store's files. -/
def getByKegId (files : List StoreFile) (kegId : String) : Option StoreFile :=
  files.find? (fun f => f.id == kegId)

/-- The request `_loadPage(fromKegId)` sends: page size 50, not
reversed, deleted and hidden records excluded server-side. -/
def loadPageRequest (fromKegId : String) : ListExtRequest :=
  { options := { reverse := false, fromKegId := fromKegId, count := 50 },
    filter := { deleted := false, hidden := false } }

/-- The file-list effect of one (non-deleted, non-hidden) record in
`_loadPage`'s response loop: hydrate a fresh `File`, then insert it
(`unshift`) unless the fileId is missing (`!file.fileId`) or already in
`fileMap`; a failed hydration inserts nothing. -/
def _loadPageStepFiles (files : List StoreFile) (r : FileRec) : List StoreFile :=
  let res := File.loadFromKeg File.newFile r
  if res.1 then
    if res.2.fileId = "" then files
    else if (files.find? (fun f => f.fileId == res.2.fileId)).isSome then files
    else res.2 :: files
  else files

/-- Processing of one record inside `_loadPage`'s response loop:
skip deleted/hidden records, bump both watermarks, and apply the
file-list effect. -/
def _loadPageStep (s : FileStore) (r : FileRec) : FileStore :=
  if r.deleted || r.hidden then s
  else
    { s with
      maxUpdateId :=
        if jsLt s.maxUpdateId r.collectionVersion then r.collectionVersion else s.maxUpdateId
      knownUpdateId :=
        if jsLt s.knownUpdateId r.collectionVersion then r.collectionVersion else s.knownUpdateId
      files := _loadPageStepFiles s.files r }

/-- The response loop of `_loadPage` over a whole page. -/
def _loadPage (s : FileStore) (page : List FileRec) : FileStore :=
  page.foldl _loadPageStep s

/-- `kegs.kegs[0].kegId`: the keg id of the *first* record of a page. -/
def pageHeadId (page : List FileRec) : String :=
  match page with
  | [] => ""
  | r :: _ => r.kegId

/-- `FileStoreBase._finishLoading`: flip the flags and subscribe to
digest notifications. -/
def _finishLoading (s : FileStore) : FileStore :=
  { s with loading := false, loaded := true, subscribedToDigest := true }

/-- The `do … while (lastPage.size > 0)` loop of `loadAllFiles`, driven
by the successive pages the server returns (an exhausted supply is an
empty page).  Also returns the list of `list-ext` requests issued. -/
def loadLoop : FileStore → String → List (List FileRec) → FileStore × List ListExtRequest
  | s, fromId, [] => (_finishLoading s, [loadPageRequest fromId])
  | s, fromId, page :: rest =>
    if page.isEmpty then (_finishLoading (_loadPage s page), [loadPageRequest fromId])
    else
      let next := loadLoop (_loadPage s page) (pageHeadId page) rest
      (next.1, loadPageRequest fromId :: next.2)

/-- `FileStoreBase.loadAllFiles`: no-op when already loading/loaded;
otherwise page from the sentinel id '999' until an empty page. -/
def loadAllFiles (s : FileStore) (pages : List (List FileRec)) :
    FileStore × List ListExtRequest :=
  if s.loading || s.loaded then (s, [])
  else loadLoop { s with loading := true } "999" pages

/-- `FileStoreBase.onFileDigestUpdate` (debounce aside): ignore while
paused, short-circuit when already caught up with the digest, otherwise
adopt the digest's `maxUpdateId` (the triggered `updateFiles` cycle is a
separate operation). -/
def onFileDigestUpdate (s : FileStore) (digestMaxUpdateId : String) : FileStore :=
  if s.paused then s
  else if s.loaded && digestMaxUpdateId == s.maxUpdateId then s
  else { s with maxUpdateId := digestMaxUpdateId }

/-- Processing of one record inside `updateFiles`'s response loop: bump
`knownUpdateId` first; skip non-deleted records with no `props.fileId`;
resolve the existing file by fileId then keg id; remove on
deleted/hidden; otherwise hydrate in place (existing) or insert a fresh
file unless hydration fails or the keg is empty. -/
def updateStepFiles (files : List StoreFile) (r : FileRec) : List StoreFile :=
  if r.propsFileId == "" && !r.deleted then files
  else
    if r.deleted || r.hidden then
      match (getById files r.propsFileId).orElse (fun _ => getByKegId files r.kegId) with
      | some f => files.erase f
      | none => files
    else
      match (getById files r.propsFileId).orElse (fun _ => getByKegId files r.kegId) with
      | some f => files.map (fun g => if g = f then (File.loadFromKeg f r).2 else g)
      | none =>
        if (File.loadFromKeg File.newFile r).1
            && (File.loadFromKeg File.newFile r).2.version ≠ 1
        then (File.loadFromKeg File.newFile r).2 :: files
        else files

/-- One record of `updateFiles`'s response loop as a state update: the
watermark bump always happens first (before any skip). -/
def updateStep (s : FileStore) (r : FileRec) : FileStore :=
  { s with
    knownUpdateId :=
      if jsLt s.knownUpdateId r.collectionVersion then r.collectionVersion else s.knownUpdateId
    files := updateStepFiles s.files r }

/-- `FileStoreBase.updateFiles`: one incremental update cycle, given the
records the (retried) fetch returns.  Guarded by the loaded/updating
flags and the caught-up check; after the loop the watermark is clamped
up to the `maxUpdateId` captured at cycle start. -/
def updateFiles (s : FileStore) (rs : List FileRec) : FileStore :=
  if !s.loaded || s.updating || s.knownUpdateId == s.maxUpdateId then s
  else
    let maxId := s.maxUpdateId
    let s1 := rs.foldl updateStep { s with updating := true }
    let s2 : FileStore := { s1 with updating := false }
    { s2 with
      knownUpdateId :=
        if jsLt s2.knownUpdateId maxId then maxId else s2.knownUpdateId }

/-- One externally triggered operation on a store. -/
inductive StoreOp where
  | load (pages : List (List FileRec))
  | digest (digestMaxUpdateId : String)
  | cycle (rs : List FileRec)

/-- Apply one operation. -/
def applyOp (s : FileStore) : StoreOp → FileStore
  | .load pages => (loadAllFiles s pages).1
  | .digest d => onFileDigestUpdate s d
  | .cycle rs => updateFiles s rs

/-- Apply a sequence of operations. -/
def applyOps (s : FileStore) (ops : List StoreOp) : FileStore :=
  ops.foldl applyOp s

/-- The C6 invariant on the in-memory list: every file has a non-empty
`fileId`, and no two files share one. -/
def FileIdsOk (l : List StoreFile) : Prop :=
  (∀ f ∈ l, f.fileId ≠ "") ∧ l.Pairwise (fun a b => a.fileId ≠ b.fileId)

/-- The C4 invariant: `knownUpdateId ≤ maxUpdateId` in JS string order. -/
def WatermarkOk (s : FileStore) : Prop :=
  jsLt s.maxUpdateId s.knownUpdateId = false

/-- Server-behaviour side conditions under which the watermark invariant
is preserved: a digest never reports a maximum below what the store has
already applied, and an update fetch only returns collection versions
bounded by the store's current maximum. -/
def goodOp (s : FileStore) : StoreOp → Bool
  | .load _ => true
  | .digest d => !jsLt d s.knownUpdateId
  | .cycle rs => rs.all (fun r => !jsLt s.maxUpdateId r.collectionVersion)

/-- A run whose every operation satisfies `goodOp` at the state it is
applied in. -/
def goodRun : FileStore → List StoreOp → Bool
  | _, [] => true
  | s, op :: rest => goodOp s op && goodRun (applyOp s op) rest

end FileStoreBase

/-! ## Helper lemmas: MyChats list operations -/

namespace MyChats

theorem mem_append_single {l : List String} {v x : String} (h : x ∈ l ++ [v]) :
    x ∈ l ∨ x = v := by
  simpa using h

theorem nodup_append_single {l : List String} {v : String} (h : l.Nodup) (hv : v ∉ l) :
    (l ++ [v]).Nodup := by
  simp [List.nodup_append, h, hv]

theorem mem_remove_snd {l : List String} {v x : String} (h : x ∈ (_remove l v).2) :
    x ∈ l := by
  unfold _remove at h
  by_cases hv : v ∈ l
  · simp [hv] at h
    exact List.mem_of_mem_erase h
  · simpa [hv] using h

theorem nodup_remove_snd {l : List String} {v : String} (h : l.Nodup) :
    ((_remove l v).2).Nodup := by
  unfold _remove
  by_cases hv : v ∈ l <;> simp [hv, h, h.erase]

theorem not_mem_remove_snd {l : List String} {v : String} (hn : l.Nodup) :
    v ∉ (_remove l v).2 := by
  unfold _remove
  by_cases hv : v ∈ l
  · simpa [hv] using hn.not_mem_erase
  · simp [hv]

theorem listsOk_applyChatOp (st : MyChats) (op : ChatOp) (h : ListsOk st) :
    ListsOk (applyChatOp st op) := by
  obtain ⟨hf, hh, hd⟩ := h
  cases op with
  | addFav id =>
    by_cases hid : id ∈ st.favorites
    · have he : applyChatOp st (.addFav id) = st := by
        simp [applyChatOp, addFavorite, _add, hid]
      rw [he]
      exact ⟨hf, hh, hd⟩
    · have he : applyChatOp st (.addFav id) =
          ⟨st.favorites ++ [id], (_remove st.hiddenChats id).2⟩ := by
        simp [applyChatOp, addFavorite, _add, hid, removeHidden]
      rw [he]
      refine ⟨nodup_append_single hf hid, nodup_remove_snd hh, ?_⟩
      intro x ⟨hx1, hx2⟩
      rcases mem_append_single hx1 with hx | hx
      · exact hd x ⟨hx, mem_remove_snd hx2⟩
      · subst hx
        exact not_mem_remove_snd hh hx2
  | remFav id =>
    have he : applyChatOp st (.remFav id) = ⟨(_remove st.favorites id).2, st.hiddenChats⟩ := by
      simp [applyChatOp, removeFavorite]
    rw [he]
    refine ⟨nodup_remove_snd hf, hh, ?_⟩
    intro x ⟨hx1, hx2⟩
    exact hd x ⟨mem_remove_snd hx1, hx2⟩
  | addHid id =>
    by_cases hid : id ∈ st.hiddenChats
    · have he : applyChatOp st (.addHid id) = st := by
        simp [applyChatOp, addHidden, _add, hid]
      rw [he]
      exact ⟨hf, hh, hd⟩
    · have he : applyChatOp st (.addHid id) =
          ⟨(_remove st.favorites id).2, st.hiddenChats ++ [id]⟩ := by
        simp [applyChatOp, addHidden, _add, hid, removeFavorite]
      rw [he]
      refine ⟨nodup_remove_snd hf, nodup_append_single hh hid, ?_⟩
      intro x ⟨hx1, hx2⟩
      rcases mem_append_single hx2 with hx | hx
      · exact hd x ⟨mem_remove_snd hx1, hx⟩
      · subst hx
        exact not_mem_remove_snd hf hx1
  | remHid id =>
    have he : applyChatOp st (.remHid id) = ⟨st.favorites, (_remove st.hiddenChats id).2⟩ := by
      simp [applyChatOp, removeHidden]
    rw [he]
    refine ⟨hf, nodup_remove_snd hh, ?_⟩
    intro x ⟨hx1, hx2⟩
    exact hd x ⟨hx1, mem_remove_snd hx2⟩

theorem listsOk_applyChatOps (ops : List ChatOp) :
    ∀ st : MyChats, ListsOk st → ListsOk (applyChatOps st ops) := by
  induction ops with
  | nil => intro st h; exact h
  | cons op rest ih =>
    intro st h
    exact ih (applyChatOp st op) (listsOk_applyChatOp st op h)

end MyChats

/-- C10: starting from empty lists, after any sequence of
addFavorite/removeFavorite/addHidden/removeHidden calls the favorites
and hiddenChats lists are disjoint and duplicate-free; addFavorite
returns true exactly when the id was not already a favorite, and
addHidden returns true exactly when the id was not already hidden. -/
theorem myChats_lists_stay_disjoint_and_nodup :
    (∀ ops : List MyChats.ChatOp, MyChats.ListsOk (MyChats.applyChatOps MyChats.emptyChats ops))
    ∧ (∀ (st : MyChats) (chatId : String),
        (MyChats.addFavorite st chatId).1 = true ↔ chatId ∉ st.favorites)
    ∧ (∀ (st : MyChats) (chatId : String),
        (MyChats.addHidden st chatId).1 = true ↔ chatId ∉ st.hiddenChats) := by
  refine ⟨?_, ?_, ?_⟩
  · intro ops
    refine MyChats.listsOk_applyChatOps ops MyChats.emptyChats ?_
    refine ⟨List.nodup_nil, List.nodup_nil, ?_⟩
    intro id h
    simp [MyChats.emptyChats] at h
  · intro st chatId
    by_cases h : chatId ∈ st.favorites <;>
      simp [MyChats.addFavorite, MyChats._add, h]
  · intro st chatId
    by_cases h : chatId ∈ st.hiddenChats <;>
      simp [MyChats.addHidden, MyChats._add, h]

/-- Witness for C10 at concrete inputs. -/
theorem myChats_lists_stay_disjoint_and_nodup_witness :
    MyChats.ListsOk (MyChats.applyChatOps MyChats.emptyChats
      [MyChats.ChatOp.addFav "a", MyChats.ChatOp.addHid "a", MyChats.ChatOp.addFav "b"])
    ∧ ((MyChats.addFavorite MyChats.emptyChats "a").1 = true ↔
        "a" ∉ MyChats.emptyChats.favorites) :=
  ⟨myChats_lists_stay_disjoint_and_nodup.1 _,
   myChats_lists_stay_disjoint_and_nodup.2.1 _ _⟩

/-! ## C8: folder name collision -/

/-- C8: `createFolder(name, parent)` with a sibling whose name matches
case-insensitively throws the `error_folderAlreadyExists` collision
error before any mutation: the target's children and the id→folder map
are unchanged, and no folder is renamed or inserted. -/
theorem createFolder_name_collision_rejected
    (st : FoldersState) (name newFolderId : String) (now : Nat) (f : FileFolderRec)
    (hmem : f ∈ st.targetFolders) (hname : jsLower f.name = jsLower name) :
    FileStoreFolders.createFolder st name newFolderId now
      = (some "error_folderAlreadyExists", st) := by
  unfold FileStoreFolders.createFolder
  cases hfind : AbstractFolder.findFolderByName st.targetFolders name with
  | some g => rfl
  | none =>
    exfalso
    have hnone := List.find?_eq_none.mp hfind f hmem
    apply hnone
    simp [AbstractFolder.normalizedName, hname]

/-- The concrete folder state of the C8 scenario: a root already
containing a folder named "Docs". -/
def c8State : FoldersState :=
  { targetFolders := [{ folderId := "id1", name := "Docs", createdAt := 0 }],
    folderResolveMap := [("id1", { folderId := "id1", name := "Docs", createdAt := 0 })] }

/-- Witness for C8: creating "docs" under a root already holding "Docs"
raises the collision error and leaves the state unchanged. -/
theorem createFolder_name_collision_rejected_witness :
    FileStoreFolders.createFolder c8State "docs" "id2" 7
      = (some "error_folderAlreadyExists", c8State) :=
  createFolder_name_collision_rejected c8State "docs" "id2" 7
    { folderId := "id1", name := "Docs", createdAt := 0 }
    (by decide) (by decide)

/-! ## C9: save failure modes of a keg with an assigned id -/

/-- C9: for a keg with an assigned id, a save whose payload serialization
throws rejects with the serialization error and leaves every field of
the keg (its version included) unchanged; when serialization succeeds
and the transport send then fails, the local version has already been
incremented by 1 even though no save succeeded (and the collection
version is untouched). -/
theorem keg_save_serialize_vs_transport_failure
    (k : Keg) (createResult : Option CreateKegResponse) (x : String)
    (hid : k.id = some x) :
    (∀ sendResult, Keg.saveToServer k createResult false sendResult
        = (some KegSaveError.serializeFailed, k))
    ∧ ((Keg.saveToServer k createResult true none).1 = some KegSaveError.transportFailed
       ∧ (Keg.saveToServer k createResult true none).2
           = { k with version := k.version + 1 }) := by
  constructor
  · intro sendResult
    simp [Keg.saveToServer, hid, Keg._internalSave]
  · constructor
    · simp [Keg.saveToServer, hid, Keg._internalSave]
    · simp [Keg.saveToServer, hid, Keg._internalSave]

/-- A concrete keg with an assigned id, for the C9 witness. -/
def c9Keg : Keg :=
  { id := some "K1", type := "file", plaintext := false, version := 3,
    owner := "alice", collectionVersion := "5", payloadData := none, props := "p" }

/-- Witness for C9 at a concrete keg. -/
theorem keg_save_serialize_vs_transport_failure_witness :
    Keg.saveToServer c9Keg none false none = (some KegSaveError.serializeFailed, c9Keg)
    ∧ (Keg.saveToServer c9Keg none true none).1 = some KegSaveError.transportFailed :=
  ⟨(keg_save_serialize_vs_transport_failure c9Keg none "K1" rfl).1 none,
   (keg_save_serialize_vs_transport_failure c9Keg none "K1" rfl).2.1⟩

/-! ## C2: version increments across saves -/

/-- A fresh keg without an id, as before its first save. -/
def c2Keg : Keg :=
  { id := none, type := "file", plaintext := false, version := 0,
    owner := "", collectionVersion := "", payloadData := none, props := "" }

/-- The create response for a fresh keg (version 1 = created, empty). -/
def c2Create : CreateKegResponse := { kegId := "K1", version := 1, collectionVersion := "1" }

/-- C2 counterexample: on the create-then-write path a successful save
takes a fresh keg (version 0) to the server-assigned create version + 1
(here 2), not to its pre-call version + 1 (here 1) — the claim's "+1
relative to the value immediately before the call" fails there. -/
theorem keg_create_save_version_jump :
    (Keg.saveToServer c2Keg (some c2Create) true (some "2")).1 = none
    ∧ (Keg.saveToServer c2Keg (some c2Create) true (some "2")).2.version ≠
        c2Keg.version + 1 := by
  constructor
  · rfl
  · decide

/-- Version bookkeeping of a sequence of successful plain-update saves. -/
theorem iterateSaves_version (cvs : List String) :
    ∀ k : Keg, (Keg.iterateSaves k cvs).version = k.version + cvs.length := by
  induction cvs with
  | nil => intro k; rfl
  | cons cv rest ih =>
    intro k
    have hstep : Keg.iterateSaves k (cv :: rest)
        = Keg.iterateSaves { k with version := k.version + 1, collectionVersion := cv } rest := by
      simp [Keg.iterateSaves, Keg._internalSave]
    rw [hstep, ih]
    simp
    omega

/-- C2 amended: on the plain update path (keg with an id) every
successful save increments the version by exactly 1, so across any
sequence of successful update saves the version after n saves is the
initial version + n — versions strictly increase and are never reused;
on the create-then-write path for a keg without an id, the final version
is the server-assigned create version + 1 (not the pre-call local
version + 1). -/
theorem keg_save_version_increment
    (k kn : Keg) (x cv : String) (c : CreateKegResponse) (cvs : List String) (i j : Nat)
    (hid : k.id = some x) (hkn : kn.id = none)
    (hi : i ≤ cvs.length) (hj : j ≤ cvs.length) (hij : i < j) :
    ((Keg.saveToServer k none true (some cv)).1 = none
      ∧ (Keg.saveToServer k none true (some cv)).2.version = k.version + 1)
    ∧ (Keg.iterateSaves k cvs).version = k.version + cvs.length
    ∧ (Keg.iterateSaves k (cvs.take i)).version < (Keg.iterateSaves k (cvs.take j)).version
    ∧ ((Keg.saveToServer kn (some c) true (some cv)).1 = none
      ∧ (Keg.saveToServer kn (some c) true (some cv)).2.version = c.version + 1) := by
  refine ⟨⟨?_, ?_⟩, ?_, ?_, ?_, ?_⟩
  · simp [Keg.saveToServer, hid, Keg._internalSave]
  · simp [Keg.saveToServer, hid, Keg._internalSave]
  · exact iterateSaves_version cvs k
  · rw [iterateSaves_version, iterateSaves_version]
    simp [List.length_take]
    omega
  · simp [Keg.saveToServer, hkn, Keg._internalSave]
  · simp [Keg.saveToServer, hkn, Keg._internalSave]

/-- Witness for C2 (amended) at concrete inputs. -/
theorem keg_save_version_increment_witness :
    ((Keg.saveToServer c9Keg none true (some "6")).1 = none
      ∧ (Keg.saveToServer c9Keg none true (some "6")).2.version = c9Keg.version + 1)
    ∧ (Keg.iterateSaves c9Keg ["6", "7"]).version = c9Keg.version + 2
    ∧ (Keg.iterateSaves c9Keg (["6", "7"].take 0)).version <
        (Keg.iterateSaves c9Keg (["6", "7"].take 2)).version
    ∧ ((Keg.saveToServer c2Keg (some c2Create) true (some "6")).1 = none
      ∧ (Keg.saveToServer c2Keg (some c2Create) true (some "6")).2.version
          = c2Create.version + 1) :=
  keg_save_version_increment c9Keg c2Keg "K1" "6" c2Create ["6", "7"] 0 2
    rfl rfl (by decide) (by decide) (by decide)

/-! ## C1: tampered hydration -/

/-- A populated encrypted keg about to be rehydrated. -/
def c1Keg : Keg :=
  { id := some "k1", type := "file", plaintext := false, version := 1,
    owner := "old", collectionVersion := "2", payloadData := none, props := "oldprops" }

/-- A raw record for the same keg id whose decrypted payload carries a
mismatching anti-tamper header. -/
def c1Raw : RawKeg :=
  { kegId := "k1", version := 5, owner := "srv", collectionVersion := "9",
    payload := some { sys := some { kegId := "evil", type := "file" }, data := "d" },
    props := "newprops", decryptsOk := true }

/-- C1 counterexample: hydrating a record whose embedded anti-tamper id
mismatches does fail with the anti-tamper error, but the keg's `version`
field has already been overwritten by the failed hydration — the claim
that no field is mutated is false on this input. -/
theorem keg_tamper_hydration_mutates_fields :
    (Keg.loadFromKeg c1Keg c1Raw).1 = some KegLoadError.antiTamperIdMismatch
    ∧ (Keg.loadFromKeg c1Keg c1Raw).2.version ≠ c1Keg.version := by
  constructor
  · rfl
  · decide

/-- C1 amended: for every encrypted keg and raw record (with a matching
or not-yet-assigned outer id) whose decrypted payload carries an
anti-tamper header mismatching the record's keg id or the keg's type,
hydration fails with an anti-tamper error and applies neither the
payload fields nor the props — but the outer metadata (id, version,
owner, collectionVersion) has already been copied from the record when
the error is thrown. -/
theorem keg_tamper_hydration_rejects_payload
    (k : Keg) (r : RawKeg) (p : KegPayload) (s : SysHeader)
    (hpt : k.plaintext = false)
    (hid : k.id = none ∨ k.id = some r.kegId)
    (hp : r.payload = some p)
    (hdec : r.decryptsOk = true)
    (hs : p.sys = some s)
    (hmis : s.kegId ≠ r.kegId ∨ s.type ≠ k.type) :
    ((Keg.loadFromKeg k r).1 = some KegLoadError.antiTamperIdMismatch
      ∨ (Keg.loadFromKeg k r).1 = some KegLoadError.antiTamperTypeMismatch)
    ∧ (Keg.loadFromKeg k r).2.payloadData = k.payloadData
    ∧ (Keg.loadFromKeg k r).2.props = k.props
    ∧ (Keg.loadFromKeg k r).2.id = some r.kegId
    ∧ (Keg.loadFromKeg k r).2.version = r.version
    ∧ (Keg.loadFromKeg k r).2.owner = r.owner
    ∧ (Keg.loadFromKeg k r).2.collectionVersion = r.collectionVersion := by
  have hbody : Keg.loadFromKeg k r = Keg.loadFromKegBody k r := by
    rcases hid with h | h
    · simp [Keg.loadFromKeg, h]
    · simp [Keg.loadFromKeg, h]
  rw [hbody]
  unfold Keg.loadFromKegBody
  rw [hp]
  by_cases hkid : s.kegId = r.kegId
  · have htype : s.type ≠ k.type := by
      rcases hmis with h | h
      · exact absurd hkid h
      · exact h
    simp [hpt, hdec, Keg.detectTampering, hs, hkid, htype]
  · simp [hpt, hdec, Keg.detectTampering, hs, hkid]

/-- Witness for C1 (amended) at the concrete tampered record. -/
theorem keg_tamper_hydration_rejects_payload_witness :
    ((Keg.loadFromKeg c1Keg c1Raw).1 = some KegLoadError.antiTamperIdMismatch
      ∨ (Keg.loadFromKeg c1Keg c1Raw).1 = some KegLoadError.antiTamperTypeMismatch)
    ∧ (Keg.loadFromKeg c1Keg c1Raw).2.payloadData = c1Keg.payloadData
    ∧ (Keg.loadFromKeg c1Keg c1Raw).2.props = c1Keg.props
    ∧ (Keg.loadFromKeg c1Keg c1Raw).2.id = some c1Raw.kegId
    ∧ (Keg.loadFromKeg c1Keg c1Raw).2.version = c1Raw.version
    ∧ (Keg.loadFromKeg c1Keg c1Raw).2.owner = c1Raw.owner
    ∧ (Keg.loadFromKeg c1Keg c1Raw).2.collectionVersion = c1Raw.collectionVersion :=
  keg_tamper_hydration_rejects_payload c1Keg c1Raw
    { sys := some { kegId := "evil", type := "file" }, data := "d" }
    { kegId := "evil", type := "file" }
    rfl (Or.inr rfl) rfl rfl rfl (Or.inl (by decide))

/-! ## C7: owner-side migration outcomes -/

/-- The migration task fails when every attempt the budget allows fails
with a non-conflict error. -/
theorem migrationTask_all_fail (outcomes : List MigrationAttempt) :
    ∀ n : Nat, (∀ o ∈ outcomes, o = MigrationAttempt.otherError) →
      FileStore.migrationTaskSucceeds n outcomes = false := by
  induction outcomes with
  | nil =>
    intro n _
    cases n <;> rfl
  | cons o rest ih =>
    intro n h
    have ho : o = MigrationAttempt.otherError := h o (List.mem_cons_self o rest)
    subst ho
    cases n with
    | zero => rfl
    | succ m =>
      simp only [FileStore.migrationTaskSucceeds]
      exact ih m (fun o' ho' => h o' (List.mem_cons_of_mem _ ho'))

/-- C7: owner-initiated migration of a legacy (format 0) file — the
final state as a function of the save outcomes: a malformed-request
conflict (another client already migrated) is converted to success with
format latest and migrating cleared; a success within the retry budget
(e.g. two failures then success, bound 10) likewise ends with format
latest and migrating cleared; exhausting the retry budget reverts the
format to 0 (legacy) and clears migrating.  In every case `migrating`
ends false. -/
theorem owner_migration_outcomes
    (rest : List MigrationAttempt) (outcomes : List MigrationAttempt)
    (hfail : ∀ o ∈ outcomes, o = MigrationAttempt.otherError) :
    FileStore.onFileAddedOwnerLegacy (MigrationAttempt.malformedRequest :: rest)
        = { format := latestFormat, migrating := false }
    ∧ FileStore.onFileAddedOwnerLegacy
        (MigrationAttempt.otherError :: MigrationAttempt.otherError :: MigrationAttempt.ok :: rest)
        = { format := latestFormat, migrating := false }
    ∧ FileStore.onFileAddedOwnerLegacy outcomes = { format := 0, migrating := false }
    ∧ ∀ anyOutcomes : List MigrationAttempt,
        (FileStore.onFileAddedOwnerLegacy anyOutcomes).migrating = false := by
  refine ⟨rfl, rfl, ?_, ?_⟩
  · unfold FileStore.onFileAddedOwnerLegacy
    rw [migrationTask_all_fail outcomes 10 hfail]
    rfl
  · intro anyOutcomes
    unfold FileStore.onFileAddedOwnerLegacy
    by_cases h : FileStore.migrationTaskSucceeds 10 anyOutcomes = true
    · rw [if_pos h]
    · rw [if_neg h]

/-- Witness for C7: conflict first, two-failures-then-success, and a
ten-failure run exhausting the `maxRetries: 10` budget. -/
theorem owner_migration_outcomes_witness :
    FileStore.onFileAddedOwnerLegacy [MigrationAttempt.malformedRequest]
        = { format := latestFormat, migrating := false }
    ∧ FileStore.onFileAddedOwnerLegacy
        [MigrationAttempt.otherError, MigrationAttempt.otherError, MigrationAttempt.ok]
        = { format := latestFormat, migrating := false }
    ∧ FileStore.onFileAddedOwnerLegacy (List.replicate 10 MigrationAttempt.otherError)
        = { format := 0, migrating := false } := by
  have h := owner_migration_outcomes [] (List.replicate 10 MigrationAttempt.otherError)
    (by intro o ho; simpa using List.eq_of_mem_replicate ho)
  exact ⟨h.1, h.2.1, h.2.2.1⟩

/-! ## Store helper lemmas: watermarks -/

namespace FileStoreBase

theorem updateStep_knownUpdateId (s : FileStore) (r : FileRec) :
    (updateStep s r).knownUpdateId = jsMaxStr s.knownUpdateId r.collectionVersion := rfl

theorem updateStep_maxUpdateId (s : FileStore) (r : FileRec) :
    (updateStep s r).maxUpdateId = s.maxUpdateId := rfl

theorem foldl_updateStep_knownUpdateId (rs : List FileRec) :
    ∀ s : FileStore, (rs.foldl updateStep s).knownUpdateId
      = rs.foldl (fun a r => jsMaxStr a r.collectionVersion) s.knownUpdateId := by
  induction rs with
  | nil => intro s; rfl
  | cons r t ih =>
    intro s
    rw [List.foldl_cons, List.foldl_cons, ih, updateStep_knownUpdateId]

theorem foldl_updateStep_maxUpdateId (rs : List FileRec) :
    ∀ s : FileStore, (rs.foldl updateStep s).maxUpdateId = s.maxUpdateId := by
  induction rs with
  | nil => intro s; rfl
  | cons r t ih =>
    intro s
    rw [List.foldl_cons, ih, updateStep_maxUpdateId]

theorem updateFiles_eq_of_guard (s : FileStore) (rs : List FileRec)
    (hg : (!s.loaded || s.updating || s.knownUpdateId == s.maxUpdateId) = true) :
    updateFiles s rs = s := by
  unfold updateFiles
  rw [if_pos hg]

theorem updateFiles_knownUpdateId (s : FileStore) (rs : List FileRec)
    (hl : s.loaded = true) (hu : s.updating = false) (hne : s.knownUpdateId ≠ s.maxUpdateId) :
    (updateFiles s rs).knownUpdateId
      = jsMaxStr (rs.foldl (fun a r => jsMaxStr a r.collectionVersion) s.knownUpdateId)
          s.maxUpdateId := by
  have hg : ¬ ((!s.loaded || s.updating || s.knownUpdateId == s.maxUpdateId) = true) := by
    simp [hl, hu, hne]
  unfold updateFiles
  rw [if_neg hg]
  show (if jsLt (rs.foldl updateStep { s with updating := true }).knownUpdateId s.maxUpdateId
        then s.maxUpdateId
        else (rs.foldl updateStep { s with updating := true }).knownUpdateId)
      = _
  rw [foldl_updateStep_knownUpdateId]
  rfl

theorem updateFiles_maxUpdateId (s : FileStore) (rs : List FileRec) :
    (updateFiles s rs).maxUpdateId = s.maxUpdateId := by
  unfold updateFiles
  by_cases hg : (!s.loaded || s.updating || s.knownUpdateId == s.maxUpdateId) = true
  · rw [if_pos hg]
  · rw [if_neg hg]
    show (rs.foldl updateStep { s with updating := true }).maxUpdateId = s.maxUpdateId
    rw [foldl_updateStep_maxUpdateId]

theorem wm_loadPageStep (s : FileStore) (r : FileRec) (h : WatermarkOk s) :
    WatermarkOk (_loadPageStep s r) := by
  unfold _loadPageStep
  by_cases hdel : (r.deleted || r.hidden) = true
  · rw [if_pos hdel]
    exact h
  · rw [if_neg hdel]
    unfold WatermarkOk at h ⊢
    dsimp only
    cases hk : jsLt s.knownUpdateId r.collectionVersion <;>
      cases hm : jsLt s.maxUpdateId r.collectionVersion
    · simpa using h
    · simp only [if_true]
      cases hc : jsLt r.collectionVersion s.knownUpdateId
      · exact hc
      · have habs := jsLt_trans hm hc
        rw [h] at habs
        exact absurd habs (by simp)
    · simpa using hm
    · simpa using jsLt_irrefl r.collectionVersion

theorem wm_loadPage (page : List FileRec) :
    ∀ s : FileStore, WatermarkOk s → WatermarkOk (_loadPage s page) := by
  induction page with
  | nil => intro s h; exact h
  | cons r t ih =>
    intro s h
    exact ih (_loadPageStep s r) (wm_loadPageStep s r h)

theorem wm_finishLoading (s : FileStore) (h : WatermarkOk s) :
    WatermarkOk (_finishLoading s) := h

theorem wm_loadLoop (pages : List (List FileRec)) :
    ∀ (s : FileStore) (fromId : String), WatermarkOk s →
      WatermarkOk (loadLoop s fromId pages).1 := by
  induction pages with
  | nil => intro s fromId h; exact wm_finishLoading s h
  | cons page rest ih =>
    intro s fromId h
    unfold loadLoop
    by_cases hemp : page.isEmpty = true
    · rw [if_pos hemp]
      exact wm_finishLoading _ (wm_loadPage page s h)
    · rw [if_neg hemp]
      exact ih (_loadPage s page) (pageHeadId page) (wm_loadPage page s h)

theorem wm_loadAllFiles (s : FileStore) (pages : List (List FileRec)) (h : WatermarkOk s) :
    WatermarkOk (loadAllFiles s pages).1 := by
  unfold loadAllFiles
  by_cases hg : (s.loading || s.loaded) = true
  · rw [if_pos hg]
    exact h
  · rw [if_neg hg]
    exact wm_loadLoop pages { s with loading := true } "999" h

theorem wm_onFileDigestUpdate (s : FileStore) (d : String) (h : WatermarkOk s)
    (hd : jsLt d s.knownUpdateId = false) : WatermarkOk (onFileDigestUpdate s d) := by
  unfold onFileDigestUpdate
  by_cases h1 : s.paused = true
  · rw [if_pos h1]
    exact h
  · rw [if_neg h1]
    by_cases h2 : (s.loaded && d == s.maxUpdateId) = true
    · rw [if_pos h2]
      exact h
    · rw [if_neg h2]
      exact hd

theorem foldMaxStr_bound (rs : List FileRec) (m : String) :
    ∀ acc : String, jsLt m acc = false →
      (∀ r ∈ rs, jsLt m r.collectionVersion = false) →
      jsLt m (rs.foldl (fun a r => jsMaxStr a r.collectionVersion) acc) = false := by
  induction rs with
  | nil => intro acc hacc _; exact hacc
  | cons r t ih =>
    intro acc hacc hall
    rw [List.foldl_cons]
    refine ih (jsMaxStr acc r.collectionVersion) ?_ (fun q hq => hall q (List.mem_cons_of_mem r hq))
    unfold jsMaxStr
    by_cases hc : jsLt acc r.collectionVersion = true
    · rw [if_pos hc]
      exact hall r (List.mem_cons_self r t)
    · rw [if_neg hc]
      exact hacc

theorem wm_updateFiles (s : FileStore) (rs : List FileRec) (h : WatermarkOk s)
    (hrs : ∀ r ∈ rs, jsLt s.maxUpdateId r.collectionVersion = false) :
    WatermarkOk (updateFiles s rs) := by
  by_cases hg : (!s.loaded || s.updating || s.knownUpdateId == s.maxUpdateId) = true
  · rw [updateFiles_eq_of_guard s rs hg]
    exact h
  · unfold WatermarkOk
    unfold updateFiles
    rw [if_neg hg]
    show jsLt (rs.foldl updateStep { s with updating := true }).maxUpdateId
        (if jsLt (rs.foldl updateStep { s with updating := true }).knownUpdateId s.maxUpdateId
         then s.maxUpdateId
         else (rs.foldl updateStep { s with updating := true }).knownUpdateId) = false
    rw [foldl_updateStep_maxUpdateId, foldl_updateStep_knownUpdateId]
    show jsLt s.maxUpdateId _ = false
    by_cases hc : jsLt (rs.foldl (fun a r => jsMaxStr a r.collectionVersion)
        ({ s with updating := true } : FileStore).knownUpdateId) s.maxUpdateId = true
    · rw [if_pos hc]
      exact jsLt_irrefl s.maxUpdateId
    · rw [if_neg hc]
      exact foldMaxStr_bound rs s.maxUpdateId s.knownUpdateId h hrs

theorem wm_applyOp (s : FileStore) (op : StoreOp) (h : WatermarkOk s)
    (hg : goodOp s op = true) : WatermarkOk (applyOp s op) := by
  cases op with
  | load pages => exact wm_loadAllFiles s pages h
  | digest d =>
    have hd : jsLt d s.knownUpdateId = false := by simpa [goodOp] using hg
    exact wm_onFileDigestUpdate s d h hd
  | cycle rs =>
    have hrs : ∀ r ∈ rs, jsLt s.maxUpdateId r.collectionVersion = false := by
      simpa [goodOp, List.all_eq_true] using hg
    exact wm_updateFiles s rs h hrs

theorem wm_applyOps (ops : List StoreOp) :
    ∀ s : FileStore, WatermarkOk s → goodRun s ops = true → WatermarkOk (applyOps s ops) := by
  induction ops with
  | nil => intro s h _; exact h
  | cons op rest ih =>
    intro s h hg
    unfold goodRun at hg
    have hg2 : goodOp s op = true ∧ goodRun (applyOp s op) rest = true := by
      simpa using hg
    exact ih (applyOp s op) (wm_applyOp s op h hg2.1) hg2.2

end FileStoreBase

/-! ## C4: the watermark invariant -/

namespace FileStoreBase

/-- A record whose collection version exceeds the digest-reported
maximum the store last saw. -/
def c4Rec : FileRec :=
  { kegId := "kZ", collectionVersion := "91", deleted := false, hidden := false,
    propsFileId := "fZ", loadOk := true, version := 2 }

/-- A run reaching a state violating `knownUpdateId ≤ maxUpdateId`:
load (empty store), digest reporting max "9", then a cycle whose fetch
returns a record at collection version "91". -/
def c4Ops : List StoreOp :=
  [StoreOp.load [], StoreOp.digest "9", StoreOp.cycle [c4Rec]]

end FileStoreBase

/-- C4 counterexample: a store state reachable by a digest notification
followed by one update cycle in which the fetch returns a record whose
collectionVersion ("91") exceeds the digest maximum ("9") ends with
knownUpdateId = "91" > maxUpdateId = "9" — the invariant
`knownUpdateId ≤ maxUpdateId` does not hold for every reachable state. -/
theorem store_watermark_invariant_violated :
    ¬ FileStoreBase.WatermarkOk
        (FileStoreBase.applyOps FileStoreBase.newStore FileStoreBase.c4Ops) := by
  unfold FileStoreBase.WatermarkOk
  decide

/-- C4 amended: `knownUpdateId ≤ maxUpdateId` (JS string order) holds in
every state reachable by digest notifications, initial-load pages and
incremental update cycles, provided the server inputs are well-behaved:
no digest notification reports a maximum below the store's current
knownUpdateId, and no update fetch returns a collectionVersion above the
store's current maxUpdateId. -/
theorem store_watermark_invariant (ops : List FileStoreBase.StoreOp)
    (hgood : FileStoreBase.goodRun FileStoreBase.newStore ops = true) :
    FileStoreBase.WatermarkOk (FileStoreBase.applyOps FileStoreBase.newStore ops) :=
  FileStoreBase.wm_applyOps ops FileStoreBase.newStore rfl hgood

/-- Witness for C4 (amended): a well-behaved run of a load, a digest
notification and a cycle whose records respect the digest bound. -/
theorem store_watermark_invariant_witness :
    FileStoreBase.goodRun FileStoreBase.newStore
      [FileStoreBase.StoreOp.load [], FileStoreBase.StoreOp.digest "9",
       FileStoreBase.StoreOp.cycle
         [{ kegId := "k1", collectionVersion := "5", deleted := false, hidden := false,
            propsFileId := "f1", loadOk := true, version := 2 }]] = true
    ∧ FileStoreBase.WatermarkOk (FileStoreBase.applyOps FileStoreBase.newStore
      [FileStoreBase.StoreOp.load [], FileStoreBase.StoreOp.digest "9",
       FileStoreBase.StoreOp.cycle
         [{ kegId := "k1", collectionVersion := "5", deleted := false, hidden := false,
            propsFileId := "f1", loadOk := true, version := 2 }]]) :=
  ⟨by decide, store_watermark_invariant _ (by decide)⟩

/-! ## C3: the incremental update watermark and the 3/7/10 scenario -/

namespace FileStoreBase

/-- The claim's scenario store: loaded, digest already adopted
(`maxUpdateId = "10"`), watermark `knownUpdateId = "0"`. -/
def c3Store : FileStore :=
  { newStore with loaded := true, maxUpdateId := "10", knownUpdateId := "0" }

/-- The claim's scenario fetch: three non-deleted records at collection
versions "3", "7", "10". -/
def c3Records : List FileRec :=
  [{ kegId := "k3", collectionVersion := "3", deleted := false, hidden := false,
     propsFileId := "f3", loadOk := true, version := 2 },
   { kegId := "k7", collectionVersion := "7", deleted := false, hidden := false,
     propsFileId := "f7", loadOk := true, version := 2 },
   { kegId := "k10", collectionVersion := "10", deleted := false, hidden := false,
     propsFileId := "f10", loadOk := true, version := 2 }]

end FileStoreBase

/-- C3 counterexample: in the claim's own scenario (digest
`{maxUpdateId "10", knownUpdateId "0"}`, records at "3", "7", "10") the
cycle ends with knownUpdateId = "7", because the source compares
collection versions as JS strings and `"10" < "7"` lexicographically —
not "10" as the claim states. -/
theorem updateFiles_scenario_watermark_not_ten :
    (FileStoreBase.updateFiles FileStoreBase.c3Store FileStoreBase.c3Records).knownUpdateId
      ≠ "10" := by
  decide

/-- C3 amended: after one update cycle the store's knownUpdateId equals
the JS-string (lexicographic) maximum of the initial watermark, every
fetched collectionVersion, and the digest maximum captured at cycle
start — for zero fetched records that is the digest maximum itself; in
the "3"/"7"/"10" scenario the store does contain exactly the three
files, but the final watermark is "7" (the lexicographic maximum), not
"10". -/
theorem updateFiles_watermark_jsmax
    (s : FileStoreBase.FileStore) (rs : List FileRec)
    (hl : s.loaded = true) (hu : s.updating = false)
    (hne : s.knownUpdateId ≠ s.maxUpdateId) :
    (FileStoreBase.updateFiles s rs).knownUpdateId
      = jsMaxStr (rs.foldl (fun a r => jsMaxStr a r.collectionVersion) s.knownUpdateId)
          s.maxUpdateId
    ∧ (FileStoreBase.updateFiles FileStoreBase.c3Store FileStoreBase.c3Records).files.map
        StoreFile.fileId = ["f10", "f7", "f3"]
    ∧ (FileStoreBase.updateFiles FileStoreBase.c3Store FileStoreBase.c3Records).knownUpdateId
        = "7" :=
  ⟨FileStoreBase.updateFiles_knownUpdateId s rs hl hu hne, by decide, by decide⟩

/-- Witness for C3 (amended) at the scenario inputs. -/
theorem updateFiles_watermark_jsmax_witness :
    (FileStoreBase.updateFiles FileStoreBase.c3Store FileStoreBase.c3Records).knownUpdateId
      = jsMaxStr (FileStoreBase.c3Records.foldl
          (fun a r => jsMaxStr a r.collectionVersion) FileStoreBase.c3Store.knownUpdateId)
          FileStoreBase.c3Store.maxUpdateId :=
  (updateFiles_watermark_jsmax FileStoreBase.c3Store FileStoreBase.c3Records
    rfl rfl (by decide)).1

/-! ## C5: the initial paged load protocol -/

namespace FileStoreBase

theorem loadLoop_paging (fullPages : List (List FileRec)) :
    ∀ (extra : List (List FileRec)) (s : FileStore) (fromId : String),
      (∀ p ∈ fullPages, p ≠ []) →
      loadLoop s fromId (fullPages ++ [] :: extra)
        = (_finishLoading (fullPages.foldl _loadPage s),
           (fromId :: fullPages.map pageHeadId).map loadPageRequest) := by
  induction fullPages with
  | nil =>
    intro extra s fromId _
    rfl
  | cons p t ih =>
    intro extra s fromId hne
    have hp : p.isEmpty = false := by
      cases p with
      | nil => exact absurd rfl (hne [] (List.mem_cons_self [] t))
      | cons a as => rfl
    rw [List.cons_append]
    show (if p.isEmpty then (_finishLoading (_loadPage s p), [loadPageRequest fromId])
          else
            ((loadLoop (_loadPage s p) (pageHeadId p) (t ++ [] :: extra)).1,
             loadPageRequest fromId ::
               (loadLoop (_loadPage s p) (pageHeadId p) (t ++ [] :: extra)).2)) = _
    rw [hp]
    simp only [Bool.false_eq_true, if_false]
    rw [ih extra (_loadPage s p) (pageHeadId p) (fun q hq => hne q (List.mem_cons_of_mem p hq))]
    rfl

end FileStoreBase

/-- C5 counterexample: for the ascending page `[a, b]` (keg id "a" <
keg id "b" in JS string order, so the page's maximum keg id is "b"), the
next page request is issued from "a" — the keg id of the *first* record
(`kegs.kegs[0].kegId`), i.e. the page's minimum — not from the maximum
as the claim states. -/
theorem loadAllFiles_next_request_not_from_max :
    jsLt "a" "b" = true
    ∧ ((FileStoreBase.loadAllFiles FileStoreBase.newStore
        [[{ kegId := "a", collectionVersion := "1", deleted := false, hidden := false,
            propsFileId := "fa", loadOk := true, version := 2 },
          { kegId := "b", collectionVersion := "2", deleted := false, hidden := false,
            propsFileId := "fb", loadOk := true, version := 2 }], []]).2.map
          (fun q => q.options.fromKegId)) = ["999", "a"]
    ∧ ("a" : String) ≠ "b" := by
  refine ⟨by decide, by decide, by decide⟩

/-- C5 amended: every initial-load page request asks for at most 50
records with `reverse: false` and a server-side filter excluding deleted
and hidden records; the first request starts from the sentinel "999",
each subsequent request starts from the keg id of the *first* record of
the previous page (its minimum under ascending order); loading stops
exactly when a page returns zero records (later pages are never
requested), at which point the store becomes loaded and subscribes to
digest notifications. -/
theorem loadAllFiles_paging_protocol
    (s : FileStoreBase.FileStore) (fullPages extra : List (List FileRec))
    (hl : s.loading = false) (hld : s.loaded = false)
    (hne : ∀ p ∈ fullPages, p ≠ []) :
    FileStoreBase.loadAllFiles s (fullPages ++ [] :: extra)
      = (FileStoreBase._finishLoading
           (fullPages.foldl FileStoreBase._loadPage { s with loading := true }),
         ("999" :: fullPages.map FileStoreBase.pageHeadId).map FileStoreBase.loadPageRequest)
    ∧ (∀ req ∈ (FileStoreBase.loadAllFiles s (fullPages ++ [] :: extra)).2,
        req.options.count = 50 ∧ req.options.reverse = false
          ∧ req.filter.deleted = false ∧ req.filter.hidden = false)
    ∧ (FileStoreBase.loadAllFiles s (fullPages ++ [] :: extra)).1.loaded = true
    ∧ (FileStoreBase.loadAllFiles s (fullPages ++ [] :: extra)).1.subscribedToDigest
        = true := by
  have heq : FileStoreBase.loadAllFiles s (fullPages ++ [] :: extra)
      = (FileStoreBase._finishLoading
           (fullPages.foldl FileStoreBase._loadPage { s with loading := true }),
         ("999" :: fullPages.map FileStoreBase.pageHeadId).map
           FileStoreBase.loadPageRequest) := by
    unfold FileStoreBase.loadAllFiles
    rw [if_neg (by simp [hl, hld])]
    exact FileStoreBase.loadLoop_paging fullPages extra { s with loading := true } "999" hne
  refine ⟨heq, ?_, ?_, ?_⟩
  · rw [heq]
    intro req hreq
    simp only [List.mem_map] at hreq
    obtain ⟨fromId, _, hfrom⟩ := hreq
    rw [← hfrom]
    exact ⟨rfl, rfl, rfl, rfl⟩
  · rw [heq]
    rfl
  · rw [heq]
    rfl

/-- Witness for C5 (amended): one full page then the empty page, with a
surplus page that is never requested. -/
theorem loadAllFiles_paging_protocol_witness :
    FileStoreBase.loadAllFiles FileStoreBase.newStore
        ([[{ kegId := "a", collectionVersion := "1", deleted := false, hidden := false,
             propsFileId := "fa", loadOk := true, version := 2 }]] ++ [] ::
          [[{ kegId := "zz", collectionVersion := "9", deleted := false, hidden := false,
              propsFileId := "fz", loadOk := true, version := 2 }]])
      = (FileStoreBase._finishLoading
           ([[{ kegId := "a", collectionVersion := "1", deleted := false, hidden := false,
                propsFileId := "fa", loadOk := true, version := 2 }]].foldl
             FileStoreBase._loadPage { FileStoreBase.newStore with loading := true }),
         ("999" :: [[{ kegId := "a", collectionVersion := "1", deleted := false,
                       hidden := false, propsFileId := "fa", loadOk := true,
                       version := 2 }]].map FileStoreBase.pageHeadId).map
           FileStoreBase.loadPageRequest) :=
  (loadAllFiles_paging_protocol FileStoreBase.newStore _ _ rfl rfl
    (by decide)).1

/-! ## Store helper lemmas: fileId uniqueness -/

namespace FileStoreBase

theorem loadFromKeg_snd_fileId (f : StoreFile) (r : FileRec) :
    (File.loadFromKeg f r).2.fileId = if r.loadOk then r.propsFileId else f.fileId := by
  cases hok : r.loadOk <;> simp [File.loadFromKeg, hok]

theorem fileIdsOk_erase (l : List StoreFile) (f : StoreFile) (h : FileIdsOk l) :
    FileIdsOk (l.erase f) :=
  ⟨fun g hg => h.1 g (List.mem_of_mem_erase hg),
   h.2.sublist (List.erase_sublist f l)⟩

theorem pairwise_fileIds_map_swap (f f' : StoreFile) :
    ∀ l : List StoreFile, l.Pairwise (fun a b => a.fileId ≠ b.fileId) →
      (∀ g ∈ l, g.fileId = f'.fileId → g.fileId = f.fileId) →
      (l.map (fun g => if g = f then f' else g)).Pairwise
        (fun a b => a.fileId ≠ b.fileId) := by
  intro l
  induction l with
  | nil =>
    intro _ _
    simp
  | cons a t ih =>
    intro hp hsafe
    rw [List.pairwise_cons] at hp
    obtain ⟨ha, ht⟩ := hp
    rw [List.map_cons, List.pairwise_cons]
    constructor
    · intro y hy
      obtain ⟨b, hb, hyb⟩ := List.mem_map.mp hy
      rw [← hyb]
      by_cases haf : a = f
      · by_cases hbf : b = f
        · exfalso
          have hanb := ha b hb
          rw [haf, hbf] at hanb
          exact hanb rfl
        · simp only [if_pos haf, if_neg hbf]
          intro heq
          have hbff : b.fileId = f.fileId := hsafe b (List.mem_cons_of_mem a hb) heq.symm
          have hanb := ha b hb
          rw [haf] at hanb
          exact hanb hbff.symm
      · by_cases hbf : b = f
        · simp only [if_neg haf, if_pos hbf]
          intro heq
          have haff : a.fileId = f.fileId := hsafe a (List.mem_cons_self a t) heq
          have hanb := ha b hb
          rw [hbf] at hanb
          exact hanb haff
        · simp only [if_neg haf, if_neg hbf]
          exact ha b hb
    · exact ih ht (fun g hg => hsafe g (List.mem_cons_of_mem a hg))

theorem fileIdsOk_map_swap (l : List StoreFile) (f f' : StoreFile) (h : FileIdsOk l)
    (hne : f'.fileId ≠ "")
    (hsafe : ∀ g ∈ l, g.fileId = f'.fileId → g.fileId = f.fileId) :
    FileIdsOk (l.map (fun g => if g = f then f' else g)) := by
  refine ⟨?_, pairwise_fileIds_map_swap f f' l h.2 hsafe⟩
  intro g hg
  obtain ⟨b, hb, hgb⟩ := List.mem_map.mp hg
  rw [← hgb]
  by_cases hbf : b = f
  · rw [if_pos hbf]
    exact hne
  · rw [if_neg hbf]
    exact h.1 b hb

theorem loadPageStepFiles_eq_fail (files : List StoreFile) (r : FileRec)
    (hok : r.loadOk = false) : _loadPageStepFiles files r = files := by
  simp [_loadPageStepFiles, File.loadFromKeg, hok]

theorem loadPageStepFiles_eq_ok (files : List StoreFile) (r : FileRec)
    (hok : r.loadOk = true) :
    _loadPageStepFiles files r =
      (if r.propsFileId = "" then files
       else if (files.find? (fun f => f.fileId == r.propsFileId)).isSome then files
       else { id := r.kegId, fileId := r.propsFileId, version := r.version } :: files) := by
  simp [_loadPageStepFiles, File.loadFromKeg, hok]

theorem fileIdsOk_loadPageStepFiles (files : List StoreFile) (r : FileRec)
    (h : FileIdsOk files) : FileIdsOk (_loadPageStepFiles files r) := by
  cases hok : r.loadOk with
  | false =>
    rw [loadPageStepFiles_eq_fail files r hok]
    exact h
  | true =>
    rw [loadPageStepFiles_eq_ok files r hok]
    by_cases hpid : r.propsFileId = ""
    · rw [if_pos hpid]
      exact h
    · rw [if_neg hpid]
      by_cases hdup : (files.find? (fun f => f.fileId == r.propsFileId)).isSome = true
      · rw [if_pos hdup]
        exact h
      · rw [if_neg hdup]
        have hnone : files.find? (fun f => f.fileId == r.propsFileId) = none :=
          Option.not_isSome_iff_eq_none.mp hdup
        have hall : ∀ g ∈ files, g.fileId ≠ r.propsFileId := by
          intro g hg
          have hng := List.find?_eq_none.mp hnone g hg
          simpa using hng
        constructor
        · intro g hg
          rcases List.mem_cons.mp hg with hg | hg
          · rw [hg]
            exact hpid
          · exact h.1 g hg
        · rw [List.pairwise_cons]
          exact ⟨fun b hb heq => hall b hb heq.symm, h.2⟩

theorem orElse_none_left {o : Option StoreFile} {g : Unit → Option StoreFile}
    (h : (o.orElse g) = none) : o = none ∧ g () = none := by
  cases o with
  | none => exact ⟨rfl, by simpa [Option.orElse] using h⟩
  | some f => simp [Option.orElse] at h

theorem orElse_some_cases {o : Option StoreFile} {g : Unit → Option StoreFile} {f : StoreFile}
    (h : (o.orElse g) = some f) : o = some f ∨ (o = none ∧ g () = some f) := by
  cases o with
  | none => exact Or.inr ⟨rfl, by simpa [Option.orElse] using h⟩
  | some f0 =>
    left
    simpa [Option.orElse] using h

theorem getById_some_facts {files : List StoreFile} {pid : String} {f : StoreFile}
    (h : getById files pid = some f) :
    f ∈ files ∧ f.fileId = pid ∧ pid ≠ "" := by
  unfold getById at h
  by_cases hpid : pid = ""
  · rw [if_pos hpid] at h
    exact absurd h (by simp)
  · rw [if_neg hpid] at h
    refine ⟨List.mem_of_find?_eq_some h, ?_, hpid⟩
    have := List.find?_some h
    simpa using this

theorem getById_none_facts {files : List StoreFile} {pid : String}
    (h : getById files pid = none) (hpid : pid ≠ "") :
    ∀ g ∈ files, g.fileId ≠ pid := by
  unfold getById at h
  rw [if_neg hpid] at h
  intro g hg
  have := List.find?_eq_none.mp h g hg
  simpa using this

theorem fileIdsOk_updateStepFiles (files : List StoreFile) (r : FileRec)
    (h : FileIdsOk files) : FileIdsOk (updateStepFiles files r) := by
  unfold updateStepFiles
  by_cases hskip : (r.propsFileId == "" && !r.deleted) = true
  · rw [if_pos hskip]
    exact h
  · rw [if_neg hskip]
    by_cases hdel : (r.deleted || r.hidden) = true
    · rw [if_pos hdel]
      cases hex : (getById files r.propsFileId).orElse (fun _ => getByKegId files r.kegId) with
      | some f => exact fileIdsOk_erase files f h
      | none => exact h
    · rw [if_neg hdel]
      have hdelf : r.deleted = false := by
        cases hd : r.deleted
        · rfl
        · rw [hd] at hdel
          simp at hdel
      have hpid : r.propsFileId ≠ "" := by
        intro hp
        exact hskip (by simp [hp, hdelf])
      cases hex : (getById files r.propsFileId).orElse (fun _ => getByKegId files r.kegId) with
      | none =>
        obtain ⟨hby, _⟩ := orElse_none_left hex
        cases hok : r.loadOk with
        | false =>
          have hred : (if (File.loadFromKeg File.newFile r).1
                && (File.loadFromKeg File.newFile r).2.version ≠ 1
              then (File.loadFromKeg File.newFile r).2 :: files else files) = files := by
            simp [File.loadFromKeg, hok]
          rw [hred]
          exact h
        | true =>
          by_cases hv : r.version = 1
          · have hred : (if (File.loadFromKeg File.newFile r).1
                  && (File.loadFromKeg File.newFile r).2.version ≠ 1
                then (File.loadFromKeg File.newFile r).2 :: files else files) = files := by
              simp [File.loadFromKeg, hok, hv]
            rw [hred]
            exact h
          · have hall := getById_none_facts hby hpid
            have hred : (if (File.loadFromKeg File.newFile r).1
                  && (File.loadFromKeg File.newFile r).2.version ≠ 1
                then (File.loadFromKeg File.newFile r).2 :: files else files)
                = ({ id := r.kegId, fileId := r.propsFileId, version := r.version } :
                    StoreFile) :: files := by
              simp [File.loadFromKeg, hok, hv]
            rw [hred]
            constructor
            · intro g hg
              rcases List.mem_cons.mp hg with hg | hg
              · rw [hg]
                exact hpid
              · exact h.1 g hg
            · rw [List.pairwise_cons]
              exact ⟨fun b hb heq => hall b hb heq.symm, h.2⟩
      | some f =>
        rcases orElse_some_cases hex with hby | ⟨hby, hkeg⟩
        · obtain ⟨hfmem, hfid, _⟩ := getById_some_facts hby
          refine fileIdsOk_map_swap files f _ h ?_ ?_
          · rw [loadFromKeg_snd_fileId]
            cases hok : r.loadOk
            · simp only [Bool.false_eq_true, if_false]
              exact h.1 f hfmem
            · simp only [if_true]
              exact hpid
          · intro g hg heq
            rw [loadFromKeg_snd_fileId] at heq
            cases hok : r.loadOk
            · rw [hok] at heq
              simpa using heq
            · rw [hok] at heq
              simp only [if_true] at heq
              rw [heq, hfid]
        · have hfmem : f ∈ files := List.mem_of_find?_eq_some hkeg
          have hall := getById_none_facts hby hpid
          refine fileIdsOk_map_swap files f _ h ?_ ?_
          · rw [loadFromKeg_snd_fileId]
            cases hok : r.loadOk
            · simp only [Bool.false_eq_true, if_false]
              exact h.1 f hfmem
            · simp only [if_true]
              exact hpid
          · intro g hg heq
            rw [loadFromKeg_snd_fileId] at heq
            cases hok : r.loadOk
            · rw [hok] at heq
              simpa using heq
            · rw [hok] at heq
              simp only [if_true] at heq
              exact absurd heq (hall g hg)

end FileStoreBase

namespace FileStoreBase

theorem _loadPageStep_files (s : FileStore) (r : FileRec) :
    (_loadPageStep s r).files
      = if r.deleted || r.hidden then s.files else _loadPageStepFiles s.files r := by
  unfold _loadPageStep
  split <;> rfl

theorem fileIdsOk_loadPageStep (s : FileStore) (r : FileRec) (h : FileIdsOk s.files) :
    FileIdsOk (_loadPageStep s r).files := by
  rw [_loadPageStep_files]
  split
  · exact h
  · exact fileIdsOk_loadPageStepFiles s.files r h

theorem fileIdsOk_loadPage (page : List FileRec) :
    ∀ s : FileStore, FileIdsOk s.files → FileIdsOk (_loadPage s page).files := by
  induction page with
  | nil => intro s h; exact h
  | cons r t ih =>
    intro s h
    exact ih (_loadPageStep s r) (fileIdsOk_loadPageStep s r h)

theorem fileIdsOk_loadLoop (pages : List (List FileRec)) :
    ∀ (s : FileStore) (fromId : String), FileIdsOk s.files →
      FileIdsOk (loadLoop s fromId pages).1.files := by
  induction pages with
  | nil => intro s fromId h; exact h
  | cons page rest ih =>
    intro s fromId h
    unfold loadLoop
    by_cases hemp : page.isEmpty = true
    · rw [if_pos hemp]
      exact fileIdsOk_loadPage page s h
    · rw [if_neg hemp]
      exact ih (_loadPage s page) (pageHeadId page) (fileIdsOk_loadPage page s h)

theorem fileIdsOk_loadAllFiles (s : FileStore) (pages : List (List FileRec))
    (h : FileIdsOk s.files) : FileIdsOk (loadAllFiles s pages).1.files := by
  unfold loadAllFiles
  by_cases hg : (s.loading || s.loaded) = true
  · rw [if_pos hg]
    exact h
  · rw [if_neg hg]
    exact fileIdsOk_loadLoop pages { s with loading := true } "999" h

theorem onFileDigestUpdate_files (s : FileStore) (d : String) :
    (onFileDigestUpdate s d).files = s.files := by
  unfold onFileDigestUpdate
  split
  · rfl
  · split <;> rfl

theorem fileIdsOk_foldl_updateStep (rs : List FileRec) :
    ∀ s : FileStore, FileIdsOk s.files → FileIdsOk (rs.foldl updateStep s).files := by
  induction rs with
  | nil => intro s h; exact h
  | cons r t ih =>
    intro s h
    exact ih (updateStep s r) (fileIdsOk_updateStepFiles s.files r h)

theorem updateFiles_files (s : FileStore) (rs : List FileRec) :
    (updateFiles s rs).files
      = if (!s.loaded || s.updating || s.knownUpdateId == s.maxUpdateId) then s.files
        else (rs.foldl updateStep { s with updating := true }).files := by
  unfold updateFiles
  split <;> rfl

theorem fileIdsOk_updateFiles (s : FileStore) (rs : List FileRec)
    (h : FileIdsOk s.files) : FileIdsOk (updateFiles s rs).files := by
  rw [updateFiles_files]
  split
  · exact h
  · exact fileIdsOk_foldl_updateStep rs { s with updating := true } h

theorem fileIdsOk_applyOp (s : FileStore) (op : StoreOp) (h : FileIdsOk s.files) :
    FileIdsOk (applyOp s op).files := by
  cases op with
  | load pages => exact fileIdsOk_loadAllFiles s pages h
  | digest d =>
    rw [applyOp, onFileDigestUpdate_files]
    exact h
  | cycle rs => exact fileIdsOk_updateFiles s rs h

theorem fileIdsOk_applyOps (ops : List StoreOp) :
    ∀ s : FileStore, FileIdsOk s.files → FileIdsOk (applyOps s ops).files := by
  induction ops with
  | nil => intro s h; exact h
  | cons op rest ih =>
    intro s h
    exact ih (applyOp s op) (fileIdsOk_applyOp s op h)

end FileStoreBase

/-- C6: after any sequence of initial-load pages and incremental update
cycles, every File in the store has a non-empty fileId unique within the
store; moreover a record that fails hydration, lacks a fileId, or
carries an already-present fileId leaves the page-load file list
unchanged (it is skipped without aborting the rest of the batch, which
the loop processes by folding over the remaining records), and in an
update cycle such a record never inserts a file (the list's length is
unchanged). -/
theorem store_fileIds_nonempty_unique :
    (∀ ops : List FileStoreBase.StoreOp,
      FileStoreBase.FileIdsOk (FileStoreBase.applyOps FileStoreBase.newStore ops).files)
    ∧ (∀ (files : List StoreFile) (r : FileRec),
        r.loadOk = false ∨ r.propsFileId = "" ∨ (∃ g ∈ files, g.fileId = r.propsFileId) →
        FileStoreBase._loadPageStepFiles files r = files)
    ∧ (∀ (files : List StoreFile) (r : FileRec),
        (r.deleted || r.hidden) = false →
        (r.loadOk = false ∨ r.propsFileId = "" ∨ (∃ g ∈ files, g.fileId = r.propsFileId)) →
        (FileStoreBase.updateStepFiles files r).length = files.length) := by
  refine ⟨?_, ?_, ?_⟩
  · intro ops
    refine FileStoreBase.fileIdsOk_applyOps ops FileStoreBase.newStore ?_
    exact ⟨fun f hf => absurd hf (List.not_mem_nil f), List.Pairwise.nil⟩
  · intro files r hcond
    rcases hcond with hok | hpid | ⟨g, hg, hgid⟩
    · exact FileStoreBase.loadPageStepFiles_eq_fail files r hok
    · cases hok : r.loadOk with
      | false => exact FileStoreBase.loadPageStepFiles_eq_fail files r hok
      | true =>
        rw [FileStoreBase.loadPageStepFiles_eq_ok files r hok, if_pos hpid]
    · cases hok : r.loadOk with
      | false => exact FileStoreBase.loadPageStepFiles_eq_fail files r hok
      | true =>
        rw [FileStoreBase.loadPageStepFiles_eq_ok files r hok]
        by_cases hpid : r.propsFileId = ""
        · rw [if_pos hpid]
        · rw [if_neg hpid, if_pos ?_]
          exact List.find?_isSome.mpr ⟨g, hg, by simp [hgid]⟩
  · intro files r hdel hcond
    have hdelf : r.deleted = false := by
      cases hd : r.deleted
      · rfl
      · rw [hd] at hdel
        simp at hdel
    unfold FileStoreBase.updateStepFiles
    by_cases hskip : (r.propsFileId == "" && !r.deleted) = true
    · rw [if_pos hskip]
    · rw [if_neg hskip, if_neg (by simp [hdel])]
      have hpid : r.propsFileId ≠ "" := by
        intro hp
        exact hskip (by simp [hp, hdelf])
      cases hex : (FileStoreBase.getById files r.propsFileId).orElse
          (fun _ => FileStoreBase.getByKegId files r.kegId) with
      | some f => exact List.length_map files _
      | none =>
        obtain ⟨hby, _⟩ := FileStoreBase.orElse_none_left hex
        have hok : r.loadOk = false := by
          cases hok : r.loadOk
          · rfl
          · rcases hcond with hc | hc | ⟨g, hg, hgid⟩
            · rw [hok] at hc
              exact absurd hc (by simp)
            · exact absurd hc hpid
            · exact absurd hgid (FileStoreBase.getById_none_facts hby hpid g hg)
        have hred : (if (File.loadFromKeg File.newFile r).1
              && (File.loadFromKeg File.newFile r).2.version ≠ 1
            then (File.loadFromKeg File.newFile r).2 :: files else files) = files := by
          simp [File.loadFromKeg, hok]
        rw [hred]

/-- Witness for C6 at concrete inputs: a run inserting, updating and
deleting files; a duplicate-fileId record skipped during page load; a
hydration-failing record during an update cycle. -/
theorem store_fileIds_nonempty_unique_witness :
    FileStoreBase.FileIdsOk (FileStoreBase.applyOps FileStoreBase.newStore
      [FileStoreBase.StoreOp.load
         [[{ kegId := "k1", collectionVersion := "1", deleted := false, hidden := false,
             propsFileId := "f1", loadOk := true, version := 2 },
           { kegId := "k2", collectionVersion := "2", deleted := false, hidden := false,
             propsFileId := "f1", loadOk := true, version := 2 }], []],
       FileStoreBase.StoreOp.digest "9",
       FileStoreBase.StoreOp.cycle
         [{ kegId := "k3", collectionVersion := "5", deleted := false, hidden := false,
            propsFileId := "f3", loadOk := true, version := 2 },
          { kegId := "k1", collectionVersion := "6", deleted := true, hidden := false,
            propsFileId := "", loadOk := false, version := 2 }]]).files
    ∧ FileStoreBase._loadPageStepFiles
        [{ id := "k1", fileId := "f1", version := 2 }]
        { kegId := "k2", collectionVersion := "2", deleted := false, hidden := false,
          propsFileId := "f1", loadOk := true, version := 2 }
      = [{ id := "k1", fileId := "f1", version := 2 }]
    ∧ (FileStoreBase.updateStepFiles [{ id := "k1", fileId := "f1", version := 2 }]
        { kegId := "k9", collectionVersion := "7", deleted := false, hidden := false,
          propsFileId := "f9", loadOk := false, version := 2 }).length
      = [({ id := "k1", fileId := "f1", version := 2 } : StoreFile)].length :=
  ⟨store_fileIds_nonempty_unique.1 _,
   store_fileIds_nonempty_unique.2.1 _ _
     (Or.inr (Or.inr ⟨{ id := "k1", fileId := "f1", version := 2 }, by decide, rfl⟩)),
   store_fileIds_nonempty_unique.2.2 _ _ rfl (Or.inl rfl)⟩
